import Mathlib

/-!
Verification of the npm2pihole reconciler.

This file gives a shallow embedding of the program's reconciliation logic:

* `pihole_manager.py` — SSH command result handling (`run_ssh_command`),
  Pi-hole CNAME alias-list parsing (`get_existing_cname_records`),
  the additive CNAME update (`update_cname_records`) and its write payload
  and restart behaviour (`restart_pihole_ftl`);
* `npm_api_manager.py` — the authenticated API request with one
  re-authentication retry (`_make_api_request`), the JSON service manifest
  loader (`load_services_from_json`) and the proxy-host synchronization
  (`sync_proxy_hosts_from_services`).

Python strings are modelled as Lean `String`s; the handful of Python string
operations the code uses (`str.strip`, `str.split(", ")`, `", ".join`,
`sorted`) are defined explicitly below so that every definition is
executable and every proof can proceed by structural induction.
Python `set` values are modelled as `Finset`, Python `dict` as an
association list with insert-or-replace update (Python dicts preserve
insertion order and overwrite values in place), and each fallible or
effectful operation is modelled as a function of an explicit outcome of its
external call (SSH result, HTTP response, file read).
-/

/-! ### Python string primitives -/

/-- Python `str.strip()` on the character list: drop whitespace from both
ends.  (Lean's `Char.isWhitespace` stands in for Python's `str.isspace`
character class; the two agree on ASCII input.) -/
def pyStrip (l : List Char) : List Char :=
  ((l.dropWhile Char.isWhitespace).reverse.dropWhile Char.isWhitespace).reverse

/-- Python `s.split(", ")`: greedy left-to-right split on the exact
two-character delimiter comma-space.  `"".split(", ") = [""]`, as in
Python. -/
def splitCS : List Char → List (List Char)
  | [] => [[]]
  | [c] => [[c]]
  | c1 :: c2 :: rest =>
    if c1 = ',' ∧ c2 = ' ' then [] :: splitCS rest
    else
      match splitCS (c2 :: rest) with
      | t :: ts => (c1 :: t) :: ts
      | [] => [[c1]]

/-- Python `", ".join(...)` on character lists. -/
def joinCS : List (List Char) → List Char
  | [] => []
  | [x] => x
  | x :: xs => x ++ ',' :: ' ' :: joinCS xs

/-- Python string comparison used by `sorted`: lexicographic by code point,
with a proper prefix comparing smaller.  Boolean `≤` test. -/
def listLexLe : List Char → List Char → Bool
  | [], _ => true
  | _ :: _, [] => false
  | a :: as, b :: bs => if a < b then true else if b < a then false else listLexLe as bs

/-- The order `sorted` sorts by, on Lean `String`s. -/
def pyLE (s t : String) : Prop := listLexLe s.data t.data = true

instance : DecidableRel pyLE := fun s t =>
  inferInstanceAs (Decidable (listLexLe s.data t.data = true))

theorem listLexLe_trans (a : List Char) : ∀ b c : List Char,
    listLexLe a b = true → listLexLe b c = true → listLexLe a c = true := by
  induction a with
  | nil => intro b c _ _; rfl
  | cons x xs ih =>
    intro b c h1 h2
    cases b with
    | nil => simp [listLexLe] at h1
    | cons y ys =>
      cases c with
      | nil => simp [listLexLe] at h2
      | cons z zs =>
        simp only [listLexLe] at h1 h2 ⊢
        by_cases hxy : x < y
        · by_cases hyz : y < z
          · simp [lt_trans hxy hyz]
          · by_cases hzy : z < y
            · simp [hyz, hzy] at h2
            · have : y = z := le_antisymm (not_lt.mp hzy) (not_lt.mp hyz)
              subst this
              simp [hxy]
        · by_cases hyx : y < x
          · simp [hxy, hyx] at h1
          · have : x = y := le_antisymm (not_lt.mp hyx) (not_lt.mp hxy)
            subst this
            simp only [hxy, hyx, if_neg, ite_false] at h1
            by_cases hyz : x < z
            · simp [hyz]
            · by_cases hzy : z < x
              · simp [hyz, hzy] at h2
              · simp only [hyz, hzy, if_neg, ite_false] at h2 ⊢
                exact ih ys zs h1 h2

theorem listLexLe_antisymm (a : List Char) : ∀ b : List Char,
    listLexLe a b = true → listLexLe b a = true → a = b := by
  induction a with
  | nil =>
    intro b _ h2
    cases b with
    | nil => rfl
    | cons y ys => simp [listLexLe] at h2
  | cons x xs ih =>
    intro b h1 h2
    cases b with
    | nil => simp [listLexLe] at h1
    | cons y ys =>
      simp only [listLexLe] at h1 h2
      by_cases hxy : x < y
      · simp [hxy, asymm hxy] at h2
      · by_cases hyx : y < x
        · simp [hxy, hyx] at h1
        · have : x = y := le_antisymm (not_lt.mp hyx) (not_lt.mp hxy)
          subst this
          simp only [hxy, hyx, if_neg, ite_false] at h1 h2
          exact congrArg (x :: ·) (ih ys h1 h2)

theorem listLexLe_total (a : List Char) : ∀ b : List Char,
    listLexLe a b = true ∨ listLexLe b a = true := by
  induction a with
  | nil => intro b; exact Or.inl rfl
  | cons x xs ih =>
    intro b
    cases b with
    | nil => exact Or.inr rfl
    | cons y ys =>
      simp only [listLexLe]
      by_cases hxy : x < y
      · simp [hxy]
      · by_cases hyx : y < x
        · simp [hxy, hyx]
        · have : x = y := le_antisymm (not_lt.mp hyx) (not_lt.mp hxy)
          subst this
          simpa [hxy, hyx] using ih ys

instance : IsTrans String pyLE := ⟨fun a b c => listLexLe_trans a.data b.data c.data⟩
instance : IsAntisymm String pyLE :=
  ⟨fun a b h1 h2 => String.ext (listLexLe_antisymm a.data b.data h1 h2)⟩
instance : IsTotal String pyLE := ⟨fun a b => listLexLe_total a.data b.data⟩

/-- Python `sorted` on a set of strings, as the Mathlib `Finset.sort` by
the Python order. -/
def pySorted (s : Finset String) : List String := Finset.sort pyLE s

/-- Characterization used to evaluate `pySorted` on concrete sets: a nodup,
sorted enumeration of the set is the sort. -/
theorem pySorted_eq_of (s : Finset String) (l : List String) (hnd : l.Nodup)
    (hfs : l.toFinset = s) (hsorted : List.Sorted pyLE l) : pySorted s = l := by
  apply List.eq_of_perm_of_sorted (r := pyLE)
  · exact List.perm_of_nodup_nodup_toFinset_eq (Finset.sort_nodup _ _) hnd
      (by rw [pySorted, Finset.sort_toFinset, hfs])
  · exact Finset.sort_sorted _ _
  · exact hsorted

/-! ### pihole_manager.py -/

/-- Outcome of the `subprocess.run(['ssh', host, command], ...)` call made
by `PiHoleManager.run_ssh_command`. -/
inductive SSHOutcome where
  | completed (returncode : Int) (stdout stderr : String)
  | timedOut
  | raised
deriving DecidableEq

/-- `PiHoleManager.run_ssh_command`: a non-zero exit code, a timeout and
any exception all yield `""`; a zero-exit command yields its stripped
stdout. -/
def run_ssh_command : SSHOutcome → String
  | .completed returncode stdout _ =>
    if returncode ≠ 0 then "" else String.mk (pyStrip stdout.data)
  | .timedOut => ""
  | .raised => ""

/-- `response[1:-1]` guarded by `startswith('[') and endswith(']')`. -/
def stripBrackets (r : List Char) : List Char :=
  if r.head? = some '[' ∧ r.getLast? = some ']' then (r.drop 1).dropLast else r

/-- The token loop of `get_existing_cname_records`: split on comma-space,
strip each part, and keep the non-empty parts containing a comma. -/
def tokensToRecords (r : List Char) : Finset String :=
  ((((splitCS r).map pyStrip).filter
    (fun p => !p.isEmpty && p.contains ',')).map String.mk).toFinset

/-- `PiHoleManager.get_existing_cname_records`, as a function of the raw
response string returned by `run_ssh_command` for the read command. -/
def get_existing_cname_records (response : String) : Finset String :=
  if response = "" ∨ response = "[]" then ∅
  else if pyStrip (stripBrackets (pyStrip response.data)) = [] then ∅
  else tokensToRecords (stripBrackets (pyStrip response.data))

/-- One record string, `f"{domain},{self.target_host}"`. -/
def cnameRecord (target_host domain : String) : String := domain ++ "," ++ target_host

/-- The `for domain in domains` loop of `update_cname_records`:
membership is tested against the records that existed before the loop
(`existing_records`), new records accumulate in `new_records`. -/
def cnameLoopAux (target_host : String) (existing_records new_records : Finset String)
    (added_count : Nat) : List String → Finset String × Nat
  | [] => (new_records, added_count)
  | domain :: rest =>
    if cnameRecord target_host domain ∈ existing_records then
      cnameLoopAux target_host existing_records new_records added_count rest
    else
      cnameLoopAux target_host existing_records
        (insert (cnameRecord target_host domain) new_records) (added_count + 1) rest

/-- The record-building part of `update_cname_records`: starting from the
existing records, returns (`new_records`, `added_count`). -/
def cnameLoop (target_host : String) (existing_records : Finset String)
    (domains : List String) : Finset String × Nat :=
  cnameLoopAux target_host existing_records existing_records 0 domains

/-- `f'"{record}"'`. -/
def quoteRecord (record : String) : String := "\"" ++ record ++ "\""

/-- `f'[ {", ".join(quoted_records)} ]'` over
`[f'"{record}"' for record in sorted(new_records)]`. -/
def formatRecords (new_records : Finset String) : String :=
  String.mk ('[' :: ' ' ::
    joinCS ((pySorted new_records).map (fun record => (quoteRecord record).data))
    ++ [' ', ']'])

/-- The configuration value `update_cname_records` writes (the command
wraps it as `sudo pihole-FTL --config dns.cnameRecords '<payload>'`);
`none` when no write is issued (`added_count = 0`, or no domains at
all). -/
def update_cname_records_payload (target_host : String) (existing_records : Finset String)
    (domains : List String) : Option String :=
  if domains = [] then none
  else if 0 < (cnameLoop target_host existing_records domains).2 then
    some (formatRecords (cnameLoop target_host existing_records domains).1)
  else none

/-- Observable effects of one `update_cname_records` call: the number of
configuration writes and restart commands issued over SSH, and what was
logged. -/
structure DnsUpdateTrace where
  writeAttempts : Nat
  writeSucceeded : Bool
  restartAttempts : Nat
  restartSucceeded : Bool
  writeErrorLogged : Bool
deriving DecidableEq

/-- `PiHoleManager.restart_pihole_ftl`: issues the restart command and
reports success by a non-empty stripped stdout; in testing mode nothing is
issued. -/
def restart_pihole_ftl (testing_mode : Bool) (restartSSH : SSHOutcome) : Nat × Bool :=
  if testing_mode then (0, false)
  else (1, run_ssh_command restartSSH != "")

/-- The effect of `update_cname_records` as a function of the SSH outcomes
of the (at most one) configuration write and the subsequent restart. -/
def update_cname_records_trace (testing_mode : Bool) (target_host : String)
    (existing_records : Finset String) (domains : List String)
    (writeSSH restartSSH : SSHOutcome) : DnsUpdateTrace :=
  if domains = [] then ⟨0, false, 0, false, false⟩
  else if 0 < (cnameLoop target_host existing_records domains).2 then
    if testing_mode then ⟨0, false, 0, false, false⟩
    else if run_ssh_command writeSSH != "" then
      ⟨1, true, (restart_pihole_ftl testing_mode restartSSH).1,
        (restart_pihole_ftl testing_mode restartSSH).2, false⟩
    else ⟨1, false, 0, false, true⟩
  else ⟨0, false, 0, false, false⟩

/-! ### npm_api_manager.py : authenticated API requests -/

/-- Status of one HTTP call made inside `_make_api_request`.  The `ok`
body stands for the decoded `response.json()`. -/
inductive HttpResp where
  | ok (body : String)
  | unauthorized
  | err (status : Nat)
  | raised
deriving DecidableEq

/-- Observable behaviour of one `_make_api_request` call: its return
value, how many HTTP requests it sent to the endpoint, how many
`_get_auth_token` calls it made, and the cached token afterwards. -/
structure ApiTrace where
  result : Option String
  requestsSent : Nat
  authCalls : Nat
  finalToken : Option String
deriving DecidableEq

/-- The part of `_make_api_request` after a token is in hand: send the
request; on 401 discard the token, re-authenticate once and retry that
request exactly once; any other non-2xx status or an exception returns
`None`. -/
def make_api_request_go (tok : String) (acalls : Nat) (authRefresh : Option String)
    (resp1 resp2 : HttpResp) : ApiTrace :=
  match resp1 with
  | .ok body => ⟨some body, 1, acalls, some tok⟩
  | .err _ => ⟨none, 1, acalls, some tok⟩
  | .raised => ⟨none, 1, acalls, some tok⟩
  | .unauthorized =>
    match authRefresh with
    | none => ⟨none, 1, acalls + 1, none⟩
    | some tok2 =>
      match resp2 with
      | .ok body => ⟨some body, 2, acalls + 1, some tok2⟩
      | _ => ⟨none, 2, acalls + 1, some tok2⟩

/-- `NPMAPIManager._make_api_request` as a function of the cached token,
the tokens the (at most two) `_get_auth_token` calls would yield (`none`
meaning authentication failure), and the responses to the first request
and to the single retry. -/
def make_api_request (token : Option String) (authFresh authRefresh : Option String)
    (resp1 resp2 : HttpResp) : ApiTrace :=
  match token, authFresh with
  | none, none => ⟨none, 0, 1, none⟩
  | none, some t => make_api_request_go t 1 authRefresh resp1 resp2
  | some t, _ => make_api_request_go t 0 authRefresh resp1 resp2

/-! ### npm_api_manager.py : proxy-host synchronization -/

/-- A proxy-host record as fetched from `GET /nginx/proxy-hosts`: only the
fields the synchronization reads. -/
structure ProxyHost where
  id : Nat
  domain_names : List String
deriving DecidableEq

/-- One service dict as produced by `load_services_from_json` in the
string-typed case the program expects. -/
structure ServiceEntry where
  hostname : String
  server_ip : String
  port : Int
deriving DecidableEq

/-- Python `dict[k] = v` on an insertion-ordered association list: replace
the value in place if the key exists, else append. -/
def dictUpsert (k : String) (v : Nat) : List (String × Nat) → List (String × Nat)
  | [] => [(k, v)]
  | (k0, v0) :: rest => if k0 = k then (k0, v) :: rest else (k0, v0) :: dictUpsert k v rest

/-- `existing_domains`: flatten every fetched host's `domain_names` into a
domain ↦ host-id dict. -/
def build_existing_domains (existing_hosts : List ProxyHost) : List (String × Nat) :=
  existing_hosts.foldl
    (fun d h => h.domain_names.foldl (fun d domain => dictUpsert domain h.id d) d) []

/-- `expected_domains`: `f"{service['hostname']}.{self.domain_suffix}"`
over all services. -/
def build_expected_domains (domain_suffix : String) (services : List ServiceEntry) :
    Finset String :=
  (services.map (fun s => s.hostname ++ "." ++ domain_suffix)).toFinset

/-- An API operation issued during synchronization. -/
inductive ProxyOp where
  | delete (host_id : Nat)
  | create (domain forward_host : String) (forward_port : Int)
deriving DecidableEq

/-- The delete loop of `sync_proxy_hosts_from_services`: one delete per
`(domain, host_id)` item of the dict whose domain is not expected. -/
def proxyDeleteOps (expected : Finset String) : List (String × Nat) → List ProxyOp
  | [] => []
  | (domain, host_id) :: rest =>
    if domain ∉ expected then .delete host_id :: proxyDeleteOps expected rest
    else proxyDeleteOps expected rest

/-- The create loop of `sync_proxy_hosts_from_services`: one create per
service whose full domain is not a key of `existing_domains` (the dict is
not updated as the loop runs). -/
def proxyCreateOps (domain_suffix : String) (existing : List (String × Nat)) :
    List ServiceEntry → List ProxyOp
  | [] => []
  | s :: rest =>
    let domain := s.hostname ++ "." ++ domain_suffix
    if existing.lookup domain = none then
      .create domain s.server_ip s.port :: proxyCreateOps domain_suffix existing rest
    else proxyCreateOps domain_suffix existing rest

/-- `sync_proxy_hosts_from_services` given the loaded services and the
fetched hosts: the list of API operations issued, in order, and the
returned expected-domain set.  With no services it returns early. -/
def sync_proxy_hosts_from_services (domain_suffix : String) (services : List ServiceEntry)
    (existing_hosts : List ProxyHost) : List ProxyOp × Finset String :=
  if services = [] then ([], ∅)
  else
    let existing := build_existing_domains existing_hosts
    let expected := build_expected_domains domain_suffix services
    (proxyDeleteOps expected existing ++ proxyCreateOps domain_suffix existing services,
      expected)

/-! ### npm_api_manager.py : JSON manifest loading -/

/-- JSON values (floats are not modelled; the manifest format uses none). -/
inductive JValue where
  | str (s : String)
  | num (n : Int)
  | bool (b : Bool)
  | null
  | arr (elems : List JValue)
  | obj (fields : List (String × JValue))

/-- Decimal digits to a number. -/
def digitsToNat (l : List Char) : Nat := l.foldl (fun a c => a * 10 + (c.toNat - 48)) 0

/-- Python `int(s)` on a string: optional surrounding whitespace, an
optional sign, then at least one decimal digit; anything else raises
(`none`).  (Underscore digit grouping is not modelled.) -/
def pyIntOfString (s : String) : Option Int :=
  match pyStrip s.data with
  | '-' :: ds => if !ds.isEmpty && ds.all Char.isDigit then some (-(digitsToNat ds : Int)) else none
  | '+' :: ds => if !ds.isEmpty && ds.all Char.isDigit then some (digitsToNat ds : Int) else none
  | ds => if !ds.isEmpty && ds.all Char.isDigit then some (digitsToNat ds : Int) else none

/-- Python `int(x)` as applied to `service['forward_port']`: ints pass
through, booleans give 1/0 (Python `bool` is an `int` subclass), numeric
strings parse, anything else raises `ValueError`/`TypeError` (`none`). -/
def coercePort : JValue → Option Int
  | .num n => some n
  | .bool b => some (if b then 1 else 0)
  | .str s => pyIntOfString s
  | _ => none

/-- One dict appended to `services` by the loader.  `hostname`,
`server_ip` and `description` keep the raw JSON value Python stores. -/
structure LoadedService where
  hostname : JValue
  server_ip : JValue
  port : Int
  description : JValue

/-- Validation and expansion of one manifest entry (a JSON object): the
entry contributes nothing when a required key is missing, `domain_names`
is not a non-empty list, or the port does not coerce; otherwise it yields
one service per domain name, all sharing the entry's host and port. -/
def entryExpand (fields : List (String × JValue)) : List LoadedService :=
  match fields.lookup "domain_names", fields.lookup "forward_host",
        fields.lookup "forward_port" with
  | some dn, some fh, some fp =>
    match dn with
    | .arr ds =>
      if ds.isEmpty then []
      else
        match coercePort fp with
        | some p => ds.map (fun d => ⟨d, fh, p, (fields.lookup "description").getD (.str "")⟩)
        | none => []
    | _ => []
  | _, _, _ => []

/-- The `for service in data.get('services', [])` loop.  An entry that is
not a JSON object makes `'domain_names' in service` raise `TypeError`,
which the outer handler turns into an empty overall result (`none` here);
a string entry is merely skipped (`in` on a string is a substring test)
unless it contains all three key names as substrings, in which case the
subscript raises as well. -/
def processServices : List JValue → Option (List LoadedService)
  | [] => some []
  | .obj fields :: rest => (processServices rest).map (entryExpand fields ++ ·)
  | .str s :: rest =>
    if ("domain_names".data <:+: s.data) ∧ ("forward_host".data <:+: s.data) ∧
       ("forward_port".data <:+: s.data)
    then none
    else processServices rest
  | _ :: _ => none

/-- What reading the manifest file produced. -/
inductive ManifestRead where
  | missing
  | badJson
  | content (data : JValue)

/-- `NPMAPIManager.load_services_from_json` as a function of the file-read
outcome.  A missing file, malformed JSON, a top-level value that is not an
object (`data.get` raises), a `services` value whose iteration raises, or
a non-object entry all produce `[]` through the error handlers; a missing
`services` key defaults to the empty list. -/
def load_services_from_json : ManifestRead → List LoadedService
  | .missing => []
  | .badJson => []
  | .content data =>
    match data with
    | .obj fields =>
      match fields.lookup "services" with
      | some (.arr entries) => (processServices entries).getD []
      | some _ => []
      | none => []
    | _ => []

/-! ### Lemmas: the CNAME record-building loop -/

theorem cnameRecord_injective (target_host : String) :
    Function.Injective (cnameRecord target_host) := by
  intro d1 d2 h
  have h' : d1.data ++ (",".data ++ target_host.data)
      = d2.data ++ (",".data ++ target_host.data) := by
    have hd := congrArg String.data h
    simpa [cnameRecord, String.data_append, List.append_assoc] using hd
  exact String.ext (List.append_cancel_right h')

theorem cnameLoopAux_fst (target_host : String) (E : Finset String) :
    ∀ (l : List String) (N : Finset String) (c : Nat),
      (cnameLoopAux target_host E N c l).1
        = N ∪ (l.toFinset.image (cnameRecord target_host)) \ E := by
  intro l
  induction l with
  | nil => intro N c; simp [cnameLoopAux]
  | cons d rest ih =>
    intro N c
    by_cases h : cnameRecord target_host d ∈ E
    · rw [cnameLoopAux, if_pos h, ih]
      rw [List.toFinset_cons, Finset.image_insert, Finset.insert_sdiff_of_mem _ h]
    · rw [cnameLoopAux, if_neg h, ih]
      rw [List.toFinset_cons, Finset.image_insert, Finset.insert_sdiff_of_not_mem _ h,
        Finset.union_insert, Finset.insert_union]

theorem cnameLoopAux_snd (target_host : String) (E : Finset String) :
    ∀ (l : List String), l.Nodup → ∀ (N : Finset String) (c : Nat),
      (cnameLoopAux target_host E N c l).2
        = c + ((l.toFinset.image (cnameRecord target_host)) \ E).card := by
  intro l
  induction l with
  | nil => intro _ N c; simp [cnameLoopAux]
  | cons d rest ih =>
    intro hnd N c
    obtain ⟨hd, hrest⟩ := List.nodup_cons.mp hnd
    by_cases h : cnameRecord target_host d ∈ E
    · rw [cnameLoopAux, if_pos h, ih hrest,
        List.toFinset_cons, Finset.image_insert, Finset.insert_sdiff_of_mem _ h]
    · rw [cnameLoopAux, if_neg h, ih hrest,
        List.toFinset_cons, Finset.image_insert, Finset.insert_sdiff_of_not_mem _ h]
      have hnm : cnameRecord target_host d
          ∉ Finset.image (cnameRecord target_host) rest.toFinset \ E := by
        intro hmem
        rcases Finset.mem_sdiff.mp hmem with ⟨himg, _⟩
        rcases Finset.mem_image.mp himg with ⟨d', hd', heq⟩
        have hdd : d' = d := cnameRecord_injective target_host heq
        exact hd (hdd ▸ List.mem_toFinset.mp hd')
      rw [Finset.card_insert_of_not_mem hnm]
      omega

theorem cnameLoop_fst (target_host : String) (E : Finset String) (l : List String) :
    (cnameLoop target_host E l).1
      = E ∪ (l.toFinset.image (cnameRecord target_host)) \ E :=
  cnameLoopAux_fst target_host E l E 0

theorem cnameLoop_snd (target_host : String) (E : Finset String) (l : List String)
    (hnd : l.Nodup) :
    (cnameLoop target_host E l).2
      = ((l.toFinset.image (cnameRecord target_host)) \ E).card := by
  simpa using cnameLoopAux_snd target_host E l hnd E 0

theorem cnameLoop_nil (target_host : String) (E : Finset String) :
    cnameLoop target_host E [] = (E, 0) := rfl

/-! ### Claim theorems: C1 -/

/-- C1: For every desired-domain set (modelled as a duplicate-free list,
since Python iterates a `set`) and every existing alias-record set, the
CNAME update loop computes an addition set equal to
`{domain + "," + target : domain ∈ domains} \ existing`, the record set it
submits equals the union of the existing records with that addition set —
so no existing record is ever removed — and re-running the loop against
the resulting record set computes zero additions. -/
theorem C1_dns_reconciliation_strictly_additive_idempotent
    (target_host : String) (E : Finset String) (l : List String) (hnd : l.Nodup) :
    (cnameLoop target_host E l).1 \ E
        = (l.toFinset.image (cnameRecord target_host)) \ E
    ∧ (cnameLoop target_host E l).1
        = E ∪ ((l.toFinset.image (cnameRecord target_host)) \ E)
    ∧ E ⊆ (cnameLoop target_host E l).1
    ∧ (cnameLoop target_host (cnameLoop target_host E l).1 l).2 = 0 := by
  have hfst := cnameLoop_fst target_host E l
  refine ⟨?_, hfst, ?_, ?_⟩
  · rw [hfst]
    ext x
    simp only [Finset.mem_sdiff, Finset.mem_union]
    tauto
  · rw [hfst]
    exact Finset.subset_union_left
  · rw [cnameLoop_snd _ _ _ hnd, Finset.card_eq_zero,
      Finset.sdiff_eq_empty_iff_subset, hfst]
    intro x hx
    by_cases hxe : x ∈ E
    · exact Finset.mem_union_left _ hxe
    · exact Finset.mem_union_right _ (Finset.mem_sdiff.mpr ⟨hx, hxe⟩)

/-- C1, instantiated: target `"T"`, existing records `{"a,T"}`, desired
domains `["a", "b"]`. -/
theorem C1_dns_reconciliation_strictly_additive_idempotent_witness :
    (cnameLoop "T" {"a,T"} ["a", "b"]).1 \ {"a,T"}
        = ((["a", "b"] : List String).toFinset.image (cnameRecord "T")) \ {"a,T"}
    ∧ (cnameLoop "T" {"a,T"} ["a", "b"]).1
        = {"a,T"} ∪ (((["a", "b"] : List String).toFinset.image (cnameRecord "T")) \ {"a,T"})
    ∧ ({"a,T"} : Finset String) ⊆ (cnameLoop "T" {"a,T"} ["a", "b"]).1
    ∧ (cnameLoop "T" (cnameLoop "T" {"a,T"} ["a", "b"]).1 ["a", "b"]).2 = 0 :=
  C1_dns_reconciliation_strictly_additive_idempotent "T" {"a,T"} ["a", "b"] (by decide)

/-! ### Claim theorems: C3 -/

theorem quoteRecord_data (r : String) : (quoteRecord r).data = '"' :: (r.data ++ ['"']) := by
  show (("\"" ++ r) ++ "\"").data = _
  rw [String.data_append, String.data_append]
  simp

/-- C3: whenever the loop computed at least one addition, the single
configuration value written is the full new record set serialized sorted
lexicographically, each element double-quoted, joined by comma-space, and
wrapped as `[ ... ]` with literal surrounding spaces; concretely, for
desired domains `x.suffix`, `y.suffix` over an empty existing set and
target `T`, the payload is exactly `[ "x.suffix,T", "y.suffix,T" ]`. -/
theorem C3_write_payload_format :
    (∀ (target_host : String) (E : Finset String) (l : List String),
        0 < (cnameLoop target_host E l).2 →
        update_cname_records_payload target_host E l
          = some (String.mk ('[' :: ' ' ::
              joinCS ((pySorted (cnameLoop target_host E l).1).map
                (fun r => '"' :: (r.data ++ ['"']))) ++ [' ', ']'])))
    ∧ update_cname_records_payload "T" ∅ ["x.suffix", "y.suffix"]
        = some "[ \"x.suffix,T\", \"y.suffix,T\" ]" := by
  constructor
  · intro target_host E l hk
    have hl : l ≠ [] := by
      intro h
      rw [h, cnameLoop_nil] at hk
      exact absurd hk (by simp)
    rw [update_cname_records_payload, if_neg hl, if_pos hk]
    rw [formatRecords]
    simp only [quoteRecord_data]
  · have hsort : pySorted (cnameLoop "T" ∅ ["x.suffix", "y.suffix"]).1
        = ["x.suffix,T", "y.suffix,T"] := by
      apply pySorted_eq_of
      · decide
      · decide
      · decide
    rw [update_cname_records_payload, if_neg (by decide), if_pos (by decide),
      formatRecords, hsort]
    decide

/-- C3, instantiated: the general payload equation applied at target `"T"`,
empty existing set and domains `["x.suffix", "y.suffix"]`. -/
theorem C3_write_payload_format_witness :
    update_cname_records_payload "T" ∅ ["x.suffix", "y.suffix"]
      = some (String.mk ('[' :: ' ' ::
          joinCS ((pySorted (cnameLoop "T" ∅ ["x.suffix", "y.suffix"]).1).map
            (fun r => '"' :: (r.data ++ ['"']))) ++ [' ', ']'])) :=
  C3_write_payload_format.1 "T" ∅ ["x.suffix", "y.suffix"] (by decide)

/-! ### Claim theorems: C9, C10 -/

/-- Helper: the three control-flow cases of `update_cname_records`. -/
theorem dnsTrace_flow (target_host : String) (E : Finset String)
    (l : List String) (writeSSH restartSSH : SSHOutcome) :
    ((cnameLoop target_host E l).2 = 0 →
      update_cname_records_trace false target_host E l writeSSH restartSSH
        = ⟨0, false, 0, false, false⟩)
    ∧ (0 < (cnameLoop target_host E l).2 → run_ssh_command writeSSH ≠ "" →
        update_cname_records_trace false target_host E l writeSSH restartSSH
          = ⟨1, true, 1, run_ssh_command restartSSH != "", false⟩)
    ∧ (0 < (cnameLoop target_host E l).2 → run_ssh_command writeSSH = "" →
        update_cname_records_trace false target_host E l writeSSH restartSSH
          = ⟨1, false, 0, false, true⟩) := by
  refine ⟨?_, ?_, ?_⟩
  · intro hk
    rcases List.eq_nil_or_concat l with hl | _
    · rw [update_cname_records_trace, if_pos hl]
    · rw [update_cname_records_trace]
      by_cases hl : l = []
      · rw [if_pos hl]
      · rw [if_neg hl, if_neg (by rw [hk]; exact lt_irrefl 0)]
  · intro hk hw
    have hl : l ≠ [] := by
      intro h
      rw [h, cnameLoop_nil] at hk
      exact absurd hk (by simp)
    rw [update_cname_records_trace, if_neg hl, if_pos hk, if_neg Bool.false_ne_true,
      if_pos (by simpa [bne_iff_ne] using hw)]
    rfl
  · intro hk hw
    have hl : l ≠ [] := by
      intro h
      rw [h, cnameLoop_nil] at hk
      exact absurd hk (by simp)
    rw [update_cname_records_trace, if_neg hl, if_pos hk, if_neg Bool.false_ne_true,
      if_neg (by simp [hw])]

/-- C9: with zero computed additions no write and no restart is issued;
with additions and a successful write exactly one restart is triggered and
the write's success is unaffected by the restart outcome; with additions
and a failed write an error is logged and neither a retry nor a restart
occurs. -/
theorem C9_write_and_restart_flow (target_host : String) (E : Finset String)
    (l : List String) (writeSSH restartSSH : SSHOutcome) :
    ((cnameLoop target_host E l).2 = 0 →
      update_cname_records_trace false target_host E l writeSSH restartSSH
        = ⟨0, false, 0, false, false⟩)
    ∧ (0 < (cnameLoop target_host E l).2 → run_ssh_command writeSSH ≠ "" →
        update_cname_records_trace false target_host E l writeSSH restartSSH
          = ⟨1, true, 1, run_ssh_command restartSSH != "", false⟩)
    ∧ (0 < (cnameLoop target_host E l).2 → run_ssh_command writeSSH = "" →
        update_cname_records_trace false target_host E l writeSSH restartSSH
          = ⟨1, false, 0, false, true⟩) :=
  dnsTrace_flow target_host E l writeSSH restartSSH

/-- C9, instantiated: one addition, successful write (`"ok"` on stdout),
restart times out: the write is still a success and exactly one restart
was attempted. -/
theorem C9_write_and_restart_flow_witness :
    update_cname_records_trace false "T" ∅ ["a"] (.completed 0 "ok" "") .timedOut
      = ⟨1, true, 1, false, false⟩ := by
  have h := (C9_write_and_restart_flow "T" ∅ ["a"] (.completed 0 "ok" "") .timedOut).2.1
    (by decide) (by decide)
  simpa using h

/-- C10: `run_ssh_command` collapses a zero-exit command with empty (or
all-whitespace) stdout, a non-zero exit, a timeout and an exception to the
same empty string; the update cycle decides the write's success solely by
that string being non-empty, so a write whose remote command exits 0
printing nothing is treated as a failure — the restart is skipped and an
error is reported. -/
theorem C10_empty_stdout_write_treated_as_failure :
    (run_ssh_command (.completed 0 "" "") = ""
      ∧ (∀ (code : Int) (stdout stderr : String), code ≠ 0 →
          run_ssh_command (.completed code stdout stderr) = "")
      ∧ run_ssh_command .timedOut = "" ∧ run_ssh_command .raised = "")
    ∧ (∀ (target_host : String) (E : Finset String) (l : List String)
        (restartSSH : SSHOutcome), 0 < (cnameLoop target_host E l).2 →
        update_cname_records_trace false target_host E l (.completed 0 "" "") restartSSH
          = ⟨1, false, 0, false, true⟩)
    ∧ (∀ (target_host : String) (E : Finset String) (l : List String)
        (writeSSH restartSSH : SSHOutcome), 0 < (cnameLoop target_host E l).2 →
        ((update_cname_records_trace false target_host E l writeSSH restartSSH).writeSucceeded
            = true ↔ run_ssh_command writeSSH ≠ "")) := by
  refine ⟨⟨by decide, ?_, by decide, by decide⟩, ?_, ?_⟩
  · intro code stdout stderr hc
    rw [run_ssh_command, if_pos hc]
  · intro target_host E l restartSSH hk
    exact (dnsTrace_flow target_host E l _ restartSSH).2.2 hk (by decide)
  · intro target_host E l writeSSH restartSSH hk
    by_cases hw : run_ssh_command writeSSH = ""
    · rw [(dnsTrace_flow target_host E l writeSSH restartSSH).2.2 hk hw]
      simp [hw]
    · rw [(dnsTrace_flow target_host E l writeSSH restartSSH).2.1 hk hw]
      simp [hw]

/-- C10, instantiated: one addition, a write command that exits 0 with
empty output: the cycle records a failed write, logs an error and skips
the restart. -/
theorem C10_empty_stdout_write_treated_as_failure_witness :
    update_cname_records_trace false "T" ∅ ["a"] (.completed 0 "" "") .timedOut
      = ⟨1, false, 0, false, true⟩ :=
  C10_empty_stdout_write_treated_as_failure.2.1 "T" ∅ ["a"] .timedOut (by decide)

/-! ### Claim theorems: C7 -/

/-- C7: an authenticated request answered with 401 discards the token,
re-authenticates exactly once and retries that single request exactly
once; a retry that succeeds returns its body, any failing retry (a second
401 included) makes the request return `none`; a failed re-authentication
makes it return `none` after the one original request; and no execution
ever sends more than two requests. -/
theorem C7_single_reauth_retry (t t2 : String) (authFresh authRefresh : Option String)
    (r2 : HttpResp) :
    (∀ (token : Option String) (r1 : HttpResp),
        (make_api_request token authFresh authRefresh r1 r2).requestsSent ≤ 2)
    ∧ (make_api_request (some t) authFresh (some t2) .unauthorized r2).authCalls = 1
    ∧ (make_api_request (some t) authFresh (some t2) .unauthorized r2).requestsSent = 2
    ∧ (∀ body, r2 = .ok body →
        (make_api_request (some t) authFresh (some t2) .unauthorized r2).result = some body)
    ∧ ((∀ body, r2 ≠ .ok body) →
        (make_api_request (some t) authFresh (some t2) .unauthorized r2).result = none)
    ∧ make_api_request (some t) authFresh none .unauthorized r2 = ⟨none, 1, 1, none⟩ := by
  refine ⟨?_, ?_, ?_, ?_, ?_, ?_⟩
  · intro token r1
    rcases token with _ | tk
    · rcases authFresh with _ | ta
      · simp [make_api_request]
      · rcases r1 with b | _ | st | _ <;> rcases authRefresh with _ | tr <;>
          rcases r2 with b2 | _ | st2 | _ <;>
          simp [make_api_request, make_api_request_go]
    · rcases r1 with b | _ | st | _ <;> rcases authRefresh with _ | tr <;>
        rcases r2 with b2 | _ | st2 | _ <;>
        simp [make_api_request, make_api_request_go]
  · rcases r2 with b2 | _ | st2 | _ <;> simp [make_api_request, make_api_request_go]
  · rcases r2 with b2 | _ | st2 | _ <;> simp [make_api_request, make_api_request_go]
  · intro body hb
    subst hb
    simp [make_api_request, make_api_request_go]
  · intro hb
    rcases r2 with b2 | _ | st2 | _
    · exact absurd rfl (hb b2)
    · simp [make_api_request, make_api_request_go]
    · simp [make_api_request, make_api_request_go]
    · simp [make_api_request, make_api_request_go]
  · simp [make_api_request, make_api_request_go]

/-- C7, instantiated: cached token `"t"`, re-authentication yields `"t2"`,
and the retry is answered with a second 401: the request returns `none`
with exactly one re-authentication and exactly two requests sent. -/
theorem C7_single_reauth_retry_witness :
    (make_api_request (some "t") none (some "t2") .unauthorized .unauthorized).requestsSent ≤ 2
    ∧ (make_api_request (some "t") none (some "t2") .unauthorized .unauthorized).authCalls = 1
    ∧ (make_api_request (some "t") none (some "t2") .unauthorized .unauthorized).requestsSent = 2
    ∧ (make_api_request (some "t") none (some "t2") .unauthorized .unauthorized).result = none :=
  ⟨(C7_single_reauth_retry "t" "t2" none (some "t2") .unauthorized).1 (some "t") .unauthorized,
   (C7_single_reauth_retry "t" "t2" none (some "t2") .unauthorized).2.1,
   (C7_single_reauth_retry "t" "t2" none (some "t2") .unauthorized).2.2.1,
   (C7_single_reauth_retry "t" "t2" none (some "t2") .unauthorized).2.2.2.2.1
     (fun body h => by cases h)⟩

/-! ### Lemmas: proxy synchronization -/

/-- Is this operation a create? -/
def ProxyOp.isCreate : ProxyOp → Bool
  | .create _ _ _ => true
  | .delete _ => false

theorem mem_proxyDeleteOps (expected : Finset String) :
    ∀ (l : List (String × Nat)) (i : Nat),
      ProxyOp.delete i ∈ proxyDeleteOps expected l
        ↔ ∃ d, (d, i) ∈ l ∧ d ∉ expected := by
  intro l
  induction l with
  | nil => intro i; simp [proxyDeleteOps]
  | cons p rest ih =>
    intro i
    obtain ⟨d0, i0⟩ := p
    by_cases h : d0 ∉ expected
    · rw [proxyDeleteOps, if_pos h]
      constructor
      · intro hmem
        rcases List.mem_cons.mp hmem with heq | hmem'
        · obtain rfl : i = i0 := by injection heq
          exact ⟨d0, List.mem_cons_self _ _, h⟩
        · obtain ⟨d, hd, hne⟩ := (ih i).mp hmem'
          exact ⟨d, List.mem_cons_of_mem _ hd, hne⟩
      · rintro ⟨d, hd, hne⟩
        rcases List.mem_cons.mp hd with heq | hmem'
        · obtain ⟨rfl, rfl⟩ : d = d0 ∧ i = i0 := by
            constructor <;> injection heq with h1 h2
          exact List.mem_cons_self _ _
        · exact List.mem_cons_of_mem _ ((ih i).mpr ⟨d, hmem', hne⟩)
    · rw [proxyDeleteOps, if_neg h, ih]
      constructor
      · rintro ⟨d, hd, hne⟩
        exact ⟨d, List.mem_cons_of_mem _ hd, hne⟩
      · rintro ⟨d, hd, hne⟩
        rcases List.mem_cons.mp hd with heq | hmem'
        · obtain ⟨rfl, rfl⟩ : d = d0 ∧ i = i0 := by
            constructor <;> injection heq with h1 h2
          exact absurd (not_not.mp h) hne
        · exact ⟨d, hmem', hne⟩

theorem create_not_mem_proxyDeleteOps (expected : Finset String) :
    ∀ (l : List (String × Nat)) (d a : String) (p : Int),
      ProxyOp.create d a p ∉ proxyDeleteOps expected l := by
  intro l
  induction l with
  | nil => intro d a p; simp [proxyDeleteOps]
  | cons q rest ih =>
    intro d a p hmem
    obtain ⟨d0, i0⟩ := q
    by_cases h : d0 ∉ expected
    · rw [proxyDeleteOps, if_pos h] at hmem
      rcases List.mem_cons.mp hmem with heq | hmem'
      · cases heq
      · exact ih d a p hmem'
    · rw [proxyDeleteOps, if_neg h] at hmem
      exact ih d a p hmem

theorem mem_proxyCreateOps (domain_suffix : String) (existing : List (String × Nat)) :
    ∀ (services : List ServiceEntry) (d a : String) (p : Int),
      ProxyOp.create d a p ∈ proxyCreateOps domain_suffix existing services
        ↔ ∃ s ∈ services, d = s.hostname ++ "." ++ domain_suffix
            ∧ existing.lookup d = none ∧ a = s.server_ip ∧ p = s.port := by
  intro services
  induction services with
  | nil => intro d a p; simp [proxyCreateOps]
  | cons s rest ih =>
    intro d a p
    by_cases h : existing.lookup (s.hostname ++ "." ++ domain_suffix) = none
    · rw [proxyCreateOps, if_pos h]
      constructor
      · intro hmem
        rcases List.mem_cons.mp hmem with heq | hmem'
        · obtain ⟨rfl, rfl, rfl⟩ : d = s.hostname ++ "." ++ domain_suffix
              ∧ a = s.server_ip ∧ p = s.port := by
            refine ⟨?_, ?_, ?_⟩ <;> injection heq with h1 h2 h3
          exact ⟨s, List.mem_cons_self _ _, rfl, h, rfl, rfl⟩
        · obtain ⟨s', hs', hprop⟩ := (ih d a p).mp hmem'
          exact ⟨s', List.mem_cons_of_mem _ hs', hprop⟩
      · rintro ⟨s', hs', hd, hlk, ha, hp⟩
        rcases List.mem_cons.mp hs' with rfl | hmem'
        · subst hd; subst ha; subst hp
          exact List.mem_cons_self _ _
        · exact List.mem_cons_of_mem _ ((ih d a p).mpr ⟨s', hmem', hd, hlk, ha, hp⟩)
    · rw [proxyCreateOps, if_neg h, ih]
      constructor
      · rintro ⟨s', hs', hprop⟩
        exact ⟨s', List.mem_cons_of_mem _ hs', hprop⟩
      · rintro ⟨s', hs', hd, hlk, ha, hp⟩
        rcases List.mem_cons.mp hs' with rfl | hmem'
        · exact absurd (hd ▸ hlk) h
        · exact ⟨s', hmem', hd, hlk, ha, hp⟩

theorem delete_not_mem_proxyCreateOps (domain_suffix : String)
    (existing : List (String × Nat)) :
    ∀ (services : List ServiceEntry) (i : Nat),
      ProxyOp.delete i ∉ proxyCreateOps domain_suffix existing services := by
  intro services
  induction services with
  | nil => intro i; simp [proxyCreateOps]
  | cons s rest ih =>
    intro i hmem
    by_cases h : existing.lookup (s.hostname ++ "." ++ domain_suffix) = none
    · rw [proxyCreateOps, if_pos h] at hmem
      rcases List.mem_cons.mp hmem with heq | hmem'
      · cases heq
      · exact ih i hmem'
    · rw [proxyCreateOps, if_neg h] at hmem
      exact ih i hmem

theorem proxyDeleteOps_filter_isCreate (expected : Finset String) :
    ∀ l : List (String × Nat),
      (proxyDeleteOps expected l).filter ProxyOp.isCreate = [] := by
  intro l
  induction l with
  | nil => rfl
  | cons q rest ih =>
    obtain ⟨d0, i0⟩ := q
    by_cases h : d0 ∉ expected
    · rw [proxyDeleteOps, if_pos h, List.filter_cons]
      simpa [ProxyOp.isCreate] using ih
    · rw [proxyDeleteOps, if_neg h]
      exact ih

theorem proxyCreateOps_filter_isCreate (domain_suffix : String)
    (existing : List (String × Nat)) :
    ∀ services : List ServiceEntry,
      ((proxyCreateOps domain_suffix existing services).filter ProxyOp.isCreate).length
        = (services.filter
            (fun s => (existing.lookup (s.hostname ++ "." ++ domain_suffix)).isNone)).length := by
  intro services
  induction services with
  | nil => rfl
  | cons s rest ih =>
    by_cases h : existing.lookup (s.hostname ++ "." ++ domain_suffix) = none
    · rw [proxyCreateOps, if_pos h, List.filter_cons, List.filter_cons]
      simp only [ProxyOp.isCreate, h, Option.isNone_none, if_pos, List.length_cons, ih]
    · rw [proxyCreateOps, if_neg h, List.filter_cons]
      have : (existing.lookup (s.hostname ++ "." ++ domain_suffix)).isNone = false := by
        rcases hbk : existing.lookup (s.hostname ++ "." ++ domain_suffix) with _ | v
        · exact absurd hbk h
        · rfl
      simp only [this, Bool.false_eq_true, if_neg, ite_false, ih]

/-! ### Claim theorems: C2 -/

/-- C2: proxy reconciliation issues a delete exactly for the host ids of
`(domain, host_id)` items of the flattened existing map whose domain is
not expected, and issues a create exactly for each desired service whose
full domain is not a key of the existing map (one per such service, using
its backend address and port); on existing records
`{example.a ↦ 1, example.b ↦ 2}` with expected `{example.b}` it deletes
id 1 and creates nothing. -/
theorem C2_proxy_sync_deletes_and_creates (domain_suffix : String)
    (services : List ServiceEntry) (existing_hosts : List ProxyHost)
    (hne : services ≠ []) :
    (∀ i : Nat,
      ProxyOp.delete i
          ∈ (sync_proxy_hosts_from_services domain_suffix services existing_hosts).1
        ↔ ∃ d, (d, i) ∈ build_existing_domains existing_hosts
            ∧ d ∉ build_expected_domains domain_suffix services)
    ∧ (∀ (d a : String) (p : Int),
      ProxyOp.create d a p
          ∈ (sync_proxy_hosts_from_services domain_suffix services existing_hosts).1
        ↔ ∃ s ∈ services, d = s.hostname ++ "." ++ domain_suffix
            ∧ (build_existing_domains existing_hosts).lookup d = none
            ∧ a = s.server_ip ∧ p = s.port)
    ∧ ((sync_proxy_hosts_from_services domain_suffix services existing_hosts).1.filter
          ProxyOp.isCreate).length
        = (services.filter
            (fun s => ((build_existing_domains existing_hosts).lookup
              (s.hostname ++ "." ++ domain_suffix)).isNone)).length
    ∧ sync_proxy_hosts_from_services "b" [⟨"example", "10.0.0.9", 8080⟩]
        [⟨1, ["example.a"]⟩, ⟨2, ["example.b"]⟩] = ([.delete 1], {"example.b"}) := by
  rw [sync_proxy_hosts_from_services, if_neg hne]
  refine ⟨?_, ?_, ?_, by decide⟩
  · intro i
    constructor
    · intro hmem
      rcases List.mem_append.mp hmem with hdel | hcre
      · exact (mem_proxyDeleteOps _ _ i).mp hdel
      · exact absurd hcre (delete_not_mem_proxyCreateOps _ _ _ i)
    · intro hex
      exact List.mem_append.mpr (Or.inl ((mem_proxyDeleteOps _ _ i).mpr hex))
  · intro d a p
    constructor
    · intro hmem
      rcases List.mem_append.mp hmem with hdel | hcre
      · exact absurd hdel (create_not_mem_proxyDeleteOps _ _ d a p)
      · exact (mem_proxyCreateOps _ _ _ d a p).mp hcre
    · intro hex
      exact List.mem_append.mpr (Or.inr ((mem_proxyCreateOps _ _ _ d a p).mpr hex))
  · rw [List.filter_append, proxyDeleteOps_filter_isCreate, List.nil_append]
    exact proxyCreateOps_filter_isCreate _ _ _

/-- C2, instantiated: the spec's concrete example, obtained from the
general theorem. -/
theorem C2_proxy_sync_deletes_and_creates_witness :
    sync_proxy_hosts_from_services "b" [⟨"example", "10.0.0.9", 8080⟩]
        [⟨1, ["example.a"]⟩, ⟨2, ["example.b"]⟩] = ([.delete 1], {"example.b"}) :=
  (C2_proxy_sync_deletes_and_creates "b" [⟨"example", "10.0.0.9", 8080⟩]
    [⟨1, ["example.a"]⟩, ⟨2, ["example.b"]⟩] (by decide)).2.2.2

/-! ### Claim theorems: C6 -/

theorem proxyDeleteOps_erase_of_expected (expected : Finset String) (d : String)
    (i : Nat) (hd : d ∈ expected) :
    ∀ l : List (String × Nat),
      proxyDeleteOps expected (l.erase (d, i)) = proxyDeleteOps expected l := by
  intro l
  induction l with
  | nil => rfl
  | cons q rest ih =>
    rcases hq : ((q == (d, i)) : Bool) with _ | _
    · rw [List.erase_cons_tail (by simpa using hq)]
      obtain ⟨d0, i0⟩ := q
      by_cases h : d0 ∉ expected
      · rw [proxyDeleteOps, if_pos h, proxyDeleteOps, if_pos h, ih]
      · rw [proxyDeleteOps, if_neg h, proxyDeleteOps, if_neg h, ih]
    · have hq' : q = (d, i) := beq_iff_eq.mp hq
      subst hq'
      rw [List.erase_cons_head, proxyDeleteOps, if_neg (not_not.mpr hd)]

theorem lookup_isSome_of_mem :
    ∀ (l : List (String × Nat)) (d : String) (i : Nat),
      (d, i) ∈ l → ∃ v, l.lookup d = some v := by
  intro l
  induction l with
  | nil => intro d i h; cases h
  | cons q rest ih =>
    intro d i hmem
    obtain ⟨d0, i0⟩ := q
    by_cases h : d = d0
    · exact ⟨i0, by simp [List.lookup, h]⟩
    · rcases List.mem_cons.mp hmem with heq | hmem'
      · exact absurd (by injection heq) h
      · obtain ⟨v, hv⟩ := ih d i hmem'
        refine ⟨v, ?_⟩
        rw [List.lookup]
        have hb : (d == d0) = false := beq_eq_false_iff_ne.mpr h
        rw [hb, hv]

/-- C6 (amended): for every desired domain that is already a key of the
existing map, its map entry generates no delete (removing that entry from
the dict leaves the delete list unchanged) and no create is issued for
that domain; the host itself is untouched provided every domain mapping to
its id is desired — a host that also carries a stale domain is still
deleted wholesale. -/
theorem C6_no_update_path (domain_suffix : String) (services : List ServiceEntry)
    (existing_hosts : List ProxyHost) (d : String) (i : Nat)
    (hne : services ≠ [])
    (hkey : (d, i) ∈ build_existing_domains existing_hosts)
    (hdesired : d ∈ build_expected_domains domain_suffix services) :
    (∀ (a : String) (p : Int),
      ProxyOp.create d a p
        ∉ (sync_proxy_hosts_from_services domain_suffix services existing_hosts).1)
    ∧ proxyDeleteOps (build_expected_domains domain_suffix services)
          ((build_existing_domains existing_hosts).erase (d, i))
        = proxyDeleteOps (build_expected_domains domain_suffix services)
            (build_existing_domains existing_hosts)
    ∧ ((∀ (d' : String), (d', i) ∈ build_existing_domains existing_hosts →
          d' ∈ build_expected_domains domain_suffix services) →
        ProxyOp.delete i
          ∉ (sync_proxy_hosts_from_services domain_suffix services existing_hosts).1) := by
  refine ⟨?_, proxyDeleteOps_erase_of_expected _ d i hdesired _, ?_⟩
  · intro a p hmem
    rw [sync_proxy_hosts_from_services, if_neg hne] at hmem
    rcases List.mem_append.mp hmem with hdel | hcre
    · exact absurd hdel (create_not_mem_proxyDeleteOps _ _ d a p)
    · obtain ⟨s, _, hd, hlk, _, _⟩ := (mem_proxyCreateOps _ _ _ d a p).mp hcre
      obtain ⟨v, hv⟩ := lookup_isSome_of_mem _ d i hkey
      rw [hv] at hlk
      cases hlk
  · intro hall hmem
    rw [sync_proxy_hosts_from_services, if_neg hne] at hmem
    rcases List.mem_append.mp hmem with hdel | hcre
    · obtain ⟨d', hd', hne'⟩ := (mem_proxyDeleteOps _ _ i).mp hdel
      exact hne' (hall d' hd')
    · exact absurd hcre (delete_not_mem_proxyCreateOps _ _ _ i)

/-- C6 counterexample: host 1 carries the desired domain `a.s` (a key of
the existing map) and the stale domain `b.s`; the cycle nevertheless
deletes host 1, so the desired domain's host is not left untouched. -/
theorem C6_no_update_path_counterexample :
    ("a.s", 1) ∈ build_existing_domains [⟨1, ["a.s", "b.s"]⟩]
    ∧ "a.s" ∈ build_expected_domains "s" [⟨"a", "10.0.0.9", 80⟩]
    ∧ ProxyOp.delete 1
        ∈ (sync_proxy_hosts_from_services "s" [⟨"a", "10.0.0.9", 80⟩]
            [⟨1, ["a.s", "b.s"]⟩]).1 := by
  refine ⟨by decide, by decide, by decide⟩

/-- C6, instantiated: a desired domain `a.s` that is a key of the existing
map, on a host all of whose domains are desired: no create for the domain,
its dict entry generates no delete, and the host is untouched. -/
theorem C6_no_update_path_witness :
    (∀ (a : String) (p : Int),
      ProxyOp.create "a.s" a p
        ∉ (sync_proxy_hosts_from_services "s" [⟨"a", "10.0.0.9", 80⟩]
            [⟨1, ["a.s"]⟩]).1)
    ∧ proxyDeleteOps (build_expected_domains "s" [⟨"a", "10.0.0.9", 80⟩])
          ((build_existing_domains [⟨1, ["a.s"]⟩]).erase ("a.s", 1))
        = proxyDeleteOps (build_expected_domains "s" [⟨"a", "10.0.0.9", 80⟩])
            (build_existing_domains [⟨1, ["a.s"]⟩])
    ∧ ((∀ (d' : String), (d', 1) ∈ build_existing_domains [⟨1, ["a.s"]⟩] →
          d' ∈ build_expected_domains "s" [⟨"a", "10.0.0.9", 80⟩]) →
        ProxyOp.delete 1
          ∉ (sync_proxy_hosts_from_services "s" [⟨"a", "10.0.0.9", 80⟩]
              [⟨1, ["a.s"]⟩]).1) :=
  C6_no_update_path "s" [⟨"a", "10.0.0.9", 80⟩] [⟨1, ["a.s"]⟩] "a.s" 1
    (by decide) (by decide) (by decide)

/-! ### Claim theorems: C8 -/

theorem processServices_skip_entry (fields : List (String × JValue))
    (hskip : entryExpand fields = []) :
    ∀ xs ys : List JValue,
      processServices (xs ++ JValue.obj fields :: ys) = processServices (xs ++ ys) := by
  intro xs
  induction xs with
  | nil =>
    intro ys
    rw [List.nil_append, List.nil_append, processServices, hskip]
    cases processServices ys <;> rfl
  | cons e rest ih =>
    intro ys
    cases e with
    | obj f =>
      rw [List.cons_append, processServices, List.cons_append, processServices, ih]
    | str s =>
      rw [List.cons_append, processServices, List.cons_append, processServices]
      by_cases h : ("domain_names".data <:+: s.data) ∧ ("forward_host".data <:+: s.data)
          ∧ ("forward_port".data <:+: s.data)
      · rw [if_pos h, if_pos h]
      · rw [if_neg h, if_neg h, ih]
    | num n => rfl
    | bool b => rfl
    | null => rfl
    | arr a => rfl

/-- C8: the manifest loader expands each valid entry into one service per
domain name, with a string port coerced to an integer; an entry with a
missing required key, an empty or non-list `domain_names`, or a
non-coercible port contributes nothing while the remaining entries are
still processed; a missing file or malformed JSON yields an empty
result. -/
theorem C8_manifest_loading :
    (load_services_from_json (.content (.obj [("services", .arr [
        .obj [("domain_names", .arr [.str "a", .str "b"]),
              ("forward_host", .str "10.0.0.5"), ("forward_port", .str "80")]])]))
      = [⟨.str "a", .str "10.0.0.5", 80, .str ""⟩,
         ⟨.str "b", .str "10.0.0.5", 80, .str ""⟩])
    ∧ (load_services_from_json (.content (.obj [("services", .arr [
        .obj [("domain_names", .arr [.str "a", .str "b"]),
              ("forward_host", .str "10.0.0.5"), ("forward_port", .str "80")],
        .obj [("domain_names", .arr [.str "c"]),
              ("forward_host", .str "h"), ("forward_port", .str "notanumber")],
        .obj [("domain_names", .arr [.str "d"]),
              ("forward_host", .str "e"), ("forward_port", .num 8080)]])]))
      = [⟨.str "a", .str "10.0.0.5", 80, .str ""⟩,
         ⟨.str "b", .str "10.0.0.5", 80, .str ""⟩,
         ⟨.str "d", .str "e", 8080, .str ""⟩])
    ∧ (∀ (fields : List (String × JValue)) (xs ys : List JValue),
        entryExpand fields = [] →
        processServices (xs ++ JValue.obj fields :: ys) = processServices (xs ++ ys))
    ∧ (∀ fields : List (String × JValue),
        (fields.lookup "domain_names" = none ∨ fields.lookup "forward_host" = none
          ∨ fields.lookup "forward_port" = none) → entryExpand fields = [])
    ∧ (∀ (fields : List (String × JValue)) (dn : JValue),
        fields.lookup "domain_names" = some dn → (∀ ds, dn = .arr ds → ds = []) →
        entryExpand fields = [])
    ∧ (∀ (fields : List (String × JValue)) (fp : JValue),
        fields.lookup "forward_port" = some fp → coercePort fp = none →
        entryExpand fields = [])
    ∧ pyIntOfString "80" = some 80 ∧ pyIntOfString "notanumber" = none
    ∧ load_services_from_json .missing = [] ∧ load_services_from_json .badJson = [] := by
  refine ⟨rfl, rfl, ?_, ?_, ?_, ?_, rfl, rfl, rfl, rfl⟩
  · intro fields xs ys hskip
    exact processServices_skip_entry fields hskip xs ys
  · intro fields h
    rcases h with h | h | h
    · simp [entryExpand, h]
    · rcases h1 : fields.lookup "domain_names" with _ | dn <;> simp [entryExpand, h, h1]
    · rcases h1 : fields.lookup "domain_names" with _ | dn <;>
        rcases h2 : fields.lookup "forward_host" with _ | fh <;>
        simp [entryExpand, h, h1, h2]
  · intro fields dn hdn hds
    rcases h2 : fields.lookup "forward_host" with _ | fh <;>
      rcases h3 : fields.lookup "forward_port" with _ | fp
    · simp [entryExpand, hdn, h2, h3]
    · simp [entryExpand, hdn, h2, h3]
    · simp [entryExpand, hdn, h2, h3]
    · cases dn with
      | arr ds =>
        have : ds = [] := hds ds rfl
        subst this
        simp [entryExpand, hdn, h2, h3]
      | str s => simp [entryExpand, hdn, h2, h3]
      | num n => simp [entryExpand, hdn, h2, h3]
      | bool b => simp [entryExpand, hdn, h2, h3]
      | null => simp [entryExpand, hdn, h2, h3]
      | obj o => simp [entryExpand, hdn, h2, h3]
  · intro fields fp hfp hco
    rcases h1 : fields.lookup "domain_names" with _ | dn
    · simp [entryExpand, h1]
    · rcases h2 : fields.lookup "forward_host" with _ | fh
      · simp [entryExpand, h1, h2]
      · cases dn with
        | arr ds => simp [entryExpand, h1, h2, hfp, hco]
        | str s => simp [entryExpand, h1, h2, hfp]
        | num n => simp [entryExpand, h1, h2, hfp]
        | bool b => simp [entryExpand, h1, h2, hfp]
        | null => simp [entryExpand, h1, h2, hfp]
        | obj o => simp [entryExpand, h1, h2, hfp]

/-- C8, instantiated: the `"notanumber"`-port entry expands to nothing,
and inserting it into a manifest list leaves the processed services
unchanged. -/
theorem C8_manifest_loading_witness :
    entryExpand [("domain_names", .arr [.str "c"]), ("forward_host", .str "h"),
        ("forward_port", .str "notanumber")] = []
    ∧ processServices ([JValue.obj [("domain_names", .arr [.str "a", .str "b"]),
          ("forward_host", .str "10.0.0.5"), ("forward_port", .str "80")]]
        ++ JValue.obj [("domain_names", .arr [.str "c"]), ("forward_host", .str "h"),
          ("forward_port", .str "notanumber")]
        :: [JValue.obj [("domain_names", .arr [.str "d"]),
          ("forward_host", .str "e"), ("forward_port", .num 8080)]])
      = processServices ([JValue.obj [("domain_names", .arr [.str "a", .str "b"]),
          ("forward_host", .str "10.0.0.5"), ("forward_port", .str "80")]]
        ++ [JValue.obj [("domain_names", .arr [.str "d"]),
          ("forward_host", .str "e"), ("forward_port", .num 8080)]]) := by
  have h1 := C8_manifest_loading.2.2.2.2.2.1
    [("domain_names", .arr [.str "c"]), ("forward_host", .str "h"),
      ("forward_port", .str "notanumber")] (.str "notanumber") rfl rfl
  exact ⟨h1, C8_manifest_loading.2.2.1 _ _ _ h1⟩

/-! ### Lemmas: stripping and splitting -/

theorem pyStrip_eq_nil_iff (l : List Char) :
    pyStrip l = [] ↔ ∀ c ∈ l, c.isWhitespace = true := by
  rw [pyStrip, List.reverse_eq_nil_iff, List.dropWhile_eq_nil_iff]
  constructor
  · intro h c hc
    rw [← List.takeWhile_append_dropWhile (p := Char.isWhitespace) (l := l)] at hc
    rcases List.mem_append.mp hc with htk | hdr
    · exact List.mem_takeWhile_imp htk
    · exact h c (List.mem_reverse.mpr hdr)
  · intro h c hc
    exact h c ((List.dropWhile_sublist _).subset (List.mem_reverse.mp hc))

theorem splitCS_mem_subset : ∀ (l : List Char), ∀ t ∈ splitCS l, ∀ c ∈ t, c ∈ l := by
  intro l
  induction l using splitCS.induct with
  | case1 =>
    intro t ht c hc
    simp only [splitCS, List.mem_singleton] at ht
    subst ht
    cases hc
  | case2 c0 =>
    intro t ht c hc
    simp only [splitCS, List.mem_singleton] at ht
    subst ht
    exact hc
  | case3 c1 c2 rest hcond ih =>
    intro t ht c hc
    rw [splitCS, if_pos hcond] at ht
    rcases List.mem_cons.mp ht with rfl | ht'
    · cases hc
    · exact List.mem_cons_of_mem _ (List.mem_cons_of_mem _ (ih t ht' c hc))
  | case4 c1 c2 rest hcond t0 ts hs ih =>
    intro t ht c hc
    rw [splitCS, if_neg hcond, hs] at ht
    rcases List.mem_cons.mp ht with rfl | ht'
    · rcases List.mem_cons.mp hc with rfl | hc'
      · exact List.mem_cons_self _ _
      · exact List.mem_cons_of_mem _ (ih t0 (hs ▸ List.mem_cons_self _ _) c hc')
    · exact List.mem_cons_of_mem _ (ih t (hs ▸ List.mem_cons_of_mem _ ht') c hc)
  | case5 c1 c2 rest hcond hs ih =>
    intro t ht c hc
    rw [splitCS, if_neg hcond, hs] at ht
    rcases List.mem_cons.mp ht with rfl | ht'
    · rcases List.mem_cons.mp hc with rfl | hc'
      · exact List.mem_cons_self _ _
      · cases hc'
    · cases ht'

theorem tokensToRecords_eq_empty_of_ws (r : List Char) (h : pyStrip r = []) :
    tokensToRecords r = ∅ := by
  have hws : ∀ c ∈ r, c.isWhitespace = true := (pyStrip_eq_nil_iff r).mp h
  rw [tokensToRecords]
  have hfil : (((splitCS r).map pyStrip).filter
      (fun p => !p.isEmpty && p.contains ',')) = [] := by
    rw [List.filter_eq_nil_iff]
    intro p hp
    rcases List.mem_map.mp hp with ⟨t, ht, rfl⟩
    have hstrip : pyStrip t = [] := (pyStrip_eq_nil_iff t).mpr
      (fun c hc => hws c (splitCS_mem_subset r t ht c hc))
    simp [hstrip]
  rw [hfil]
  rfl

/-! ### Claim theorems: C4 -/

/-- The parse procedure exactly as the claim words it: empty string or the
two-character empty-list marker give the empty set; otherwise strip one
leading and one trailing bracket (if present), split on comma-space, and
keep the non-empty whitespace-trimmed tokens containing a comma.  (No
whitespace-trimming of the whole response before the bracket check.) -/
def claimParse (s : String) : Finset String :=
  if s = "" ∨ s = "[]" then ∅
  else tokensToRecords (stripBrackets s.data)

/-- C4 counterexample: on the input `" [a,b]"` (leading space) the code
first strips surrounding whitespace and hence removes the brackets,
yielding `{"a,b"}`, while the claim's procedure — which has no such
pre-trimming step — sees no leading bracket and yields `{"[a,b]"}`. -/
theorem C4_parse_counterexample :
    get_existing_cname_records " [a,b]" = {"a,b"}
    ∧ claimParse " [a,b]" = {"[a,b]"}
    ∧ get_existing_cname_records " [a,b]" ≠ claimParse " [a,b]" := by
  refine ⟨by decide, by decide, by decide⟩

/-- C4 (amended): for every input string, the code's parse equals the
claim's procedure applied to the whitespace-stripped input. -/
theorem C4_parse_equals_claim_after_strip (s : String) :
    get_existing_cname_records s = claimParse (String.mk (pyStrip s.data)) := by
  by_cases h0 : s = "" ∨ s = "[]"
  · rcases h0 with rfl | rfl
    · rfl
    · rfl
  · rw [get_existing_cname_records, if_neg h0]
    by_cases h1 : String.mk (pyStrip s.data) = "" ∨ String.mk (pyStrip s.data) = "[]"
    · rw [claimParse, if_pos h1]
      rcases h1 with h1 | h1
      · have hr : pyStrip s.data = [] := congrArg String.data h1
        rw [hr]
        rfl
      · have hr : pyStrip s.data = ['[', ']'] := congrArg String.data h1
        rw [hr]
        rfl
    · rw [claimParse, if_neg h1]
      by_cases hg : pyStrip (stripBrackets (pyStrip s.data)) = []
      · rw [if_pos hg]
        exact (tokensToRecords_eq_empty_of_ws _ hg).symm
      · rw [if_neg hg]

/-- C4 (amended), instantiated at `" [a,b]"`. -/
theorem C4_parse_equals_claim_after_strip_witness :
    get_existing_cname_records " [a,b]" = claimParse (String.mk (pyStrip " [a,b]".data)) :=
  C4_parse_equals_claim_after_strip " [a,b]"

/-! ### Lemmas: strip and split against the serialized form -/

theorem dropWhile_eq_self_of_head {p : Char → Bool} :
    ∀ l : List Char, (∀ c, l.head? = some c → p c = false) → l.dropWhile p = l := by
  intro l h
  cases l with
  | nil => rfl
  | cons c cs => exact List.dropWhile_cons_of_neg (by simp [h c rfl])

theorem pyStrip_of_clean_ends (l : List Char)
    (hh : ∀ c, l.head? = some c → c.isWhitespace = false)
    (hl : ∀ c, l.getLast? = some c → c.isWhitespace = false) : pyStrip l = l := by
  rw [pyStrip, dropWhile_eq_self_of_head l hh,
    dropWhile_eq_self_of_head l.reverse (fun c hc => hl c (by rwa [List.head?_reverse] at hc)),
    List.reverse_reverse]

theorem pyStrip_cons_ws (c : Char) (hc : c.isWhitespace = true) (l : List Char) :
    pyStrip (c :: l) = pyStrip l := by
  rw [pyStrip, pyStrip, List.dropWhile_cons_of_pos hc]

theorem pyStrip_concat_ws (c : Char) (hc : c.isWhitespace = true) :
    ∀ l : List Char, pyStrip (l ++ [c]) = pyStrip l := by
  intro l
  induction l with
  | nil =>
    rw [List.nil_append, pyStrip, pyStrip, List.dropWhile_nil,
      List.dropWhile_cons_of_pos hc]
    rfl
  | cons d ds ih =>
    by_cases hd : d.isWhitespace = true
    · rw [List.cons_append, pyStrip_cons_ws d hd, pyStrip_cons_ws d hd, ih]
    · have hd' : d.isWhitespace = false := by
        rcases hb : d.isWhitespace with _ | _
        · rfl
        · exact absurd hb hd
      have h1 : List.dropWhile Char.isWhitespace ((d :: ds) ++ [c]) = (d :: ds) ++ [c] := by
        rw [List.cons_append]
        exact List.dropWhile_cons_of_neg (by simp [hd'])
      have h2 : List.dropWhile Char.isWhitespace (d :: ds) = d :: ds :=
        List.dropWhile_cons_of_neg (by simp [hd'])
      rw [pyStrip, pyStrip, h1, h2, List.reverse_concat,
        List.dropWhile_cons_of_pos hc]

theorem splitCS_eq_single : ∀ y : List Char, ¬ ([',', ' '] <:+: y) → splitCS y = [y] := by
  intro y
  induction y using splitCS.induct with
  | case1 => intro _; rfl
  | case2 c0 => intro _; rfl
  | case3 c1 c2 rest hcond ih =>
    intro h
    obtain ⟨rfl, rfl⟩ := hcond
    exact absurd (List.IsPrefix.isInfix ⟨rest, rfl⟩) h
  | case4 c1 c2 rest hcond t0 ts hs ih =>
    intro h
    have htail : ¬ ([',', ' '] <:+: c2 :: rest) := fun hinf => h (List.infix_cons hinf)
    have := ih htail
    rw [hs] at this
    obtain ⟨rfl, rfl⟩ : t0 = c2 :: rest ∧ ts = [] := by
      refine ⟨?_, ?_⟩ <;> injection this
    rw [splitCS, if_neg hcond, hs]
  | case5 c1 c2 rest hcond hs ih =>
    intro h
    have htail : ¬ ([',', ' '] <:+: c2 :: rest) := fun hinf => h (List.infix_cons hinf)
    have := ih htail
    rw [hs] at this
    cases this

theorem splitCS_cons_of_head (c1 : Char) (hc : c1 ≠ ',') :
    ∀ (y t : List Char) (ts : List (List Char)),
      splitCS y = t :: ts → splitCS (c1 :: y) = (c1 :: t) :: ts := by
  intro y t ts hs
  cases y with
  | nil =>
    obtain ⟨rfl, rfl⟩ : t = [] ∧ ts = [] := by
      refine ⟨?_, ?_⟩ <;> injection hs <;> simp_all
    rfl
  | cons c2 rest =>
    rw [splitCS, if_neg (by rintro ⟨h1, _⟩; exact hc h1), hs]

theorem splitCS_append_sep : ∀ (x r : List Char), ¬ ([',', ' '] <:+: x) →
    splitCS (x ++ ',' :: ' ' :: r) = x :: splitCS r := by
  intro x
  induction x with
  | nil =>
    intro r _
    rw [List.nil_append, splitCS, if_pos ⟨rfl, rfl⟩]
  | cons c cs ih =>
    intro r h
    cases cs with
    | nil =>
      rw [List.cons_append, List.nil_append, splitCS,
        if_neg (by rintro ⟨_, h2⟩; exact absurd h2 (by decide)),
        show splitCS (',' :: ' ' :: r) = [] :: splitCS r from by
          rw [splitCS, if_pos ⟨rfl, rfl⟩]]
    | cons c2 cs' =>
      have hcc : ¬ (c = ',' ∧ c2 = ' ') := by
        rintro ⟨rfl, rfl⟩
        exact h (List.IsPrefix.isInfix ⟨cs', rfl⟩)
      have htail : ¬ ([',', ' '] <:+: c2 :: cs') := fun hinf => h (List.infix_cons hinf)
      rw [List.cons_append, List.cons_append, splitCS, if_neg hcc,
        show splitCS (c2 :: (cs' ++ ',' :: ' ' :: r)) = (c2 :: cs') :: splitCS r from
          ih r htail]

theorem infix_sep_append_space : ∀ x : List Char, [',', ' '] <:+: (x ++ [' ']) →
    [',', ' '] <:+: x ∨ x.getLast? = some ',' := by
  intro x
  induction x with
  | nil =>
    intro h
    exact absurd h.length_le (by decide)
  | cons c cs ih =>
    intro h
    rw [List.cons_append] at h
    rcases List.infix_cons_iff.mp h with hpre | htail
    · obtain ⟨t, ht⟩ := hpre
      simp only [List.cons_append, List.nil_append] at ht
      injection ht with h1 h2
      subst h1
      cases cs with
      | nil => exact Or.inr rfl
      | cons c2 cs' =>
        rw [List.cons_append] at h2
        injection h2 with h3 h4
        subst h3
        exact Or.inl (List.IsPrefix.isInfix ⟨cs', rfl⟩)
    · rcases ih htail with hinf | hlast
      · exact Or.inl (List.infix_cons hinf)
      · cases cs with
        | nil => cases hlast
        | cons c2 cs' =>
          rw [List.getLast?_cons_cons]
          exact Or.inr hlast

theorem joinCS_cons_of_ne_nil (x : List Char) (xs : List (List Char)) (h : xs ≠ []) :
    joinCS (x :: xs) = x ++ ',' :: ' ' :: joinCS xs := by
  cases xs with
  | nil => exact absurd rfl h
  | cons y ys => rfl

theorem mem_joinCS : ∀ (D : List (List Char)) (x : List Char), x ∈ D →
    ∀ c ∈ x, c ∈ joinCS D := by
  intro D
  induction D with
  | nil => intro x hx; cases hx
  | cons y ys ih =>
    intro x hx c hc
    cases ys with
    | nil =>
      rcases List.mem_singleton.mp hx with rfl
      exact hc
    | cons y2 ys' =>
      rw [joinCS_cons_of_ne_nil y (y2 :: ys') (by simp)]
      rcases List.mem_cons.mp hx with rfl | hx'
      · exact List.mem_append.mpr (Or.inl hc)
      · exact List.mem_append.mpr (Or.inr (List.mem_cons_of_mem _
          (List.mem_cons_of_mem _ (ih x hx' c hc))))

theorem splitCS_join_pad : ∀ (init : List (List Char)) (z : List Char),
    (∀ x ∈ init, ¬ ([',', ' '] <:+: x)) → ¬ ([',', ' '] <:+: z) →
    z.getLast? ≠ some ',' →
    splitCS (joinCS (init ++ [z]) ++ [' ']) = init ++ [z ++ [' ']] := by
  intro init
  induction init with
  | nil =>
    intro z _ hz hlast
    rw [List.nil_append, List.nil_append,
      show joinCS [z] = z from rfl]
    apply splitCS_eq_single
    intro hinf
    rcases infix_sep_append_space z hinf with h | h
    · exact hz h
    · exact hlast h
  | cons x init' ih =>
    intro z hinit hz hlast
    rw [List.cons_append, joinCS_cons_of_ne_nil x (init' ++ [z]) (by simp),
      List.append_assoc,
      show (',' :: ' ' :: joinCS (init' ++ [z])) ++ [' ']
        = ',' :: ' ' :: (joinCS (init' ++ [z]) ++ [' ']) from rfl,
      splitCS_append_sep x _ (hinit x (List.mem_cons_self _ _)),
      ih z (fun y hy => hinit y (List.mem_cons_of_mem _ hy)) hz hlast,
      List.cons_append]

/-! ### Claim theorems: C5 -/

/-- A well-formed serialized alias record: contains a comma, no embedded
comma-space delimiter, no surrounding whitespace, and not ending in a
comma (the boundary conditions the round trip needs). -/
def cleanRecord (s : String) : Prop :=
  ',' ∈ s.data ∧ ¬ ([',', ' '] <:+: s.data)
  ∧ (s.data.head?.getD ' ').isWhitespace = false
  ∧ (s.data.getLast?.getD ' ').isWhitespace = false
  ∧ s.data.getLast?.getD ' ' ≠ ','

instance cleanRecordDecidable (s : String) : Decidable (cleanRecord s) := by
  unfold cleanRecord
  infer_instance

theorem cleanRecord_parts (s : String) (h : cleanRecord s) :
    s.data ≠ [] ∧ ',' ∈ s.data ∧ ¬ ([',', ' '] <:+: s.data)
    ∧ (∀ c, s.data.head? = some c → c.isWhitespace = false)
    ∧ (∀ c, s.data.getLast? = some c → c.isWhitespace = false ∧ c ≠ ',') := by
  obtain ⟨hmem, hinf, hh, hl1, hl2⟩ := h
  refine ⟨?_, hmem, hinf, ?_, ?_⟩
  · intro hnil
    rw [hnil] at hmem
    cases hmem
  · intro c hc
    rw [hc] at hh
    exact hh
  · intro c hc
    rw [hc] at hl1 hl2
    exact ⟨hl1, hl2⟩

/-- The unquoted bracket form in which the resolver reports a record set:
`[ a,b, c,d ]`, sorted. -/
def readForm (records : Finset String) : String :=
  String.mk ('[' :: ' ' :: joinCS ((pySorted records).map String.data) ++ [' ', ']'])

theorem parse_serialized_list (l : List String) (response : String)
    (hresp : response.data = '[' :: ' ' :: joinCS (l.map String.data) ++ [' ', ']'])
    (hcl : ∀ s ∈ l, cleanRecord s) :
    get_existing_cname_records response = l.toFinset := by
  rcases List.eq_nil_or_concat l with rfl | ⟨init, z, rfl⟩
  · have hresp' : response = "[  ]" := String.ext (by rw [hresp]; rfl)
    rw [hresp']
    decide
  · rw [List.concat_eq_append] at hresp ⊢
    have hclz := cleanRecord_parts z (hcl z (by simp))
    have hne1 : response ≠ "" := by
      intro h
      rw [h] at hresp
      exact absurd hresp.symm (by simp)
    have hne2 : response ≠ "[]" := by
      intro h
      rw [h] at hresp
      have h45 : (']' : Char) = ' ' ∨ False := by
        have h2 := hresp
        injection h2 with _ h3
        injection h3 with h4 _
        exact Or.inl h4
      rcases h45 with h4 | h4
      · exact absurd h4 (by decide)
      · exact h4
    rw [get_existing_cname_records, if_neg (not_or.mpr ⟨hne1, hne2⟩), hresp]
    have hlastR : ('[' :: ' ' :: joinCS ((init ++ [z]).map String.data)
        ++ [' ', ']']).getLast? = some ']' := by
      rw [show '[' :: ' ' :: joinCS ((init ++ [z]).map String.data) ++ [' ', ']']
          = ('[' :: ' ' :: (joinCS ((init ++ [z]).map String.data) ++ [' '])) ++ [']']
          from by simp, List.getLast?_concat]
    have hstripR : pyStrip ('[' :: ' ' :: joinCS ((init ++ [z]).map String.data)
        ++ [' ', ']']) = '[' :: ' ' :: joinCS ((init ++ [z]).map String.data)
        ++ [' ', ']'] := by
      apply pyStrip_of_clean_ends
      · intro c hc
        injection hc with hc
        subst hc
        decide
      · intro c hc
        rw [hlastR] at hc
        injection hc with hc
        subst hc
        decide
    have hheadR : ('[' :: ' ' :: joinCS ((init ++ [z]).map String.data)
        ++ [' ', ']']).head? = some '[' := rfl
    rw [hstripR, stripBrackets, if_pos (And.intro hheadR hlastR)]
    have hdrop : ((('[' :: ' ' :: joinCS ((init ++ [z]).map String.data)
        ++ [' ', ']']).drop 1).dropLast)
        = ' ' :: (joinCS ((init ++ [z]).map String.data) ++ [' ']) := by
      rw [show ('[' :: ' ' :: joinCS ((init ++ [z]).map String.data)
          ++ [' ', ']']).drop 1
          = (' ' :: (joinCS ((init ++ [z]).map String.data) ++ [' '])) ++ [']']
          from by simp, List.dropLast_concat]
    rw [hdrop]
    have hcomma : (',' : Char)
        ∈ ' ' :: (joinCS ((init ++ [z]).map String.data) ++ [' ']) := by
      have hzmem : z.data ∈ (init ++ [z]).map String.data := by simp
      have hmem := mem_joinCS _ z.data hzmem ',' hclz.2.1
      exact List.mem_cons_of_mem _ (List.mem_append.mpr (Or.inl hmem))
    have hguard : pyStrip (' ' :: (joinCS ((init ++ [z]).map String.data)
        ++ [' '])) ≠ [] := by
      intro h
      exact absurd ((pyStrip_eq_nil_iff _).mp h ',' hcomma) (by decide)
    rw [if_neg hguard]
    have hzlast : z.data.getLast? ≠ some ',' := by
      intro h
      exact (hclz.2.2.2.2 ',' h).2 rfl
    have hjoin : splitCS (joinCS ((init ++ [z]).map String.data) ++ [' '])
        = init.map String.data ++ [z.data ++ [' ']] := by
      rw [List.map_append]
      exact splitCS_join_pad (init.map String.data) z.data
        (fun x hx => by
          rcases List.mem_map.mp hx with ⟨s, hs, rfl⟩
          exact (cleanRecord_parts s (hcl s (by simp [hs]))).2.2.1)
        hclz.2.2.1 hzlast
    obtain ⟨t0, ts, hT⟩ : ∃ t0 ts,
        init.map String.data ++ [z.data ++ [' ']] = t0 :: ts := by
      cases hmap : init.map String.data with
      | nil => exact ⟨z.data ++ [' '], [], rfl⟩
      | cons m ms => exact ⟨m, ms ++ [z.data ++ [' ']], by rw [List.cons_append]⟩
    have hsplit : splitCS (' ' :: (joinCS ((init ++ [z]).map String.data) ++ [' ']))
        = (' ' :: t0) :: ts :=
      splitCS_cons_of_head ' ' (by decide) _ t0 ts (by rw [hjoin, hT])
    rw [tokensToRecords, hsplit]
    have hmapstrip : (((' ' :: t0) :: ts).map pyStrip)
        = (init ++ [z]).map String.data := by
      have h1 : (((' ' :: t0) :: ts).map pyStrip) = ((t0 :: ts).map pyStrip) := by
        rw [List.map_cons, List.map_cons, pyStrip_cons_ws ' ' (by decide)]
      rw [h1, ← hT, List.map_append, List.map_append, List.map_map]
      congr 1
      · apply List.map_congr_left
        intro s hs
        have hp := cleanRecord_parts s (hcl s (by simp [hs]))
        exact pyStrip_of_clean_ends s.data
          (fun c hc => hp.2.2.2.1 c hc) (fun c hc => (hp.2.2.2.2 c hc).1)
      · show [pyStrip (z.data ++ [' '])] = [z.data]
        rw [pyStrip_concat_ws ' ' (by decide),
          pyStrip_of_clean_ends z.data (fun c hc => hclz.2.2.2.1 c hc)
            (fun c hc => (hclz.2.2.2.2 c hc).1)]
    rw [hmapstrip]
    have hfil : (((init ++ [z]).map String.data).filter
        (fun p => !p.isEmpty && p.contains ',')) = (init ++ [z]).map String.data := by
      rw [List.filter_eq_self]
      intro p hp
      rcases List.mem_map.mp hp with ⟨s, hs, rfl⟩
      have hparts := cleanRecord_parts s (hcl s (by simp [hs]))
      have h1 : s.data.isEmpty = false := by
        rcases hq : s.data with _ | _
        · exact absurd hq hparts.1
        · rfl
      simp [h1, hparts.2.1]
    rw [hfil]
    have hmk : (((init ++ [z]).map String.data).map String.mk) = init ++ [z] := by
      rw [List.map_map,
        show List.map (String.mk ∘ String.data) (init ++ [z])
          = List.map id (init ++ [z]) from List.map_congr_left (fun s _ => rfl),
        List.map_id]
    rw [hmk]

/-- C5 counterexample: the record `"a,b,"` satisfies the claim's literal
side conditions (it contains a comma and no embedded comma-space
delimiter), yet serializing the singleton set and parsing the unquoted
read form `[ a,b, ]` yields `{"a,b"}`, not `{"a,b,"}` — the trailing
comma fuses with the padding space into a delimiter. -/
theorem C5_roundtrip_counterexample :
    (',' ∈ ("a,b," : String).data ∧ ¬ ([',', ' '] <:+: ("a,b," : String).data))
    ∧ readForm {"a,b,"} = "[ a,b, ]"
    ∧ get_existing_cname_records (readForm {"a,b,"}) ≠ {"a,b,"} := by
  have hs : pySorted {"a,b,"} = ["a,b,"] :=
    pySorted_eq_of _ _ (by decide) (by decide) (by decide)
  have hrf : readForm {"a,b,"} = "[ a,b, ]" := by
    rw [readForm, hs]
    rfl
  refine ⟨⟨by decide, by decide⟩, hrf, ?_⟩
  rw [hrf]
  decide

/-- C5 (amended): for every finite set of records that contain a comma,
contain no embedded comma-space delimiter, carry no surrounding
whitespace, and do not end in a comma, serializing into the bracket form
and parsing the unquoted read form yields the same set. -/
theorem C5_roundtrip_amended (S : Finset String) (hcl : ∀ s ∈ S, cleanRecord s) :
    get_existing_cname_records (readForm S) = S := by
  have hl : ∀ s ∈ pySorted S, cleanRecord s := fun s hs =>
    hcl s ((Finset.mem_sort (r := pyLE)).mp hs)
  have h := parse_serialized_list (pySorted S) (readForm S) rfl hl
  rw [h, pySorted, Finset.sort_toFinset]

/-- C5 (amended), instantiated at the singleton `{"a,T"}`. -/
theorem C5_roundtrip_amended_witness :
    get_existing_cname_records (readForm {"a,T"}) = {"a,T"} :=
  C5_roundtrip_amended {"a,T"} (by decide)
